import Mathlib

/-!
Verification of the task-orchestration core of `webpcompressor`.

The definitions below are a shallow embedding of the Go source:

* `internal/web/worker_pool.go` (task worker pool: `NewWorkerPool`,
  `SubmitTask`, `processTask`, `executeCompressionWithProgress`);
* `internal/domain/webp.go` (frame worker pool: `NewWorkerPool`, `Submit`,
  `Close`, `Wait`, `worker`);
* `internal/infrastructure` (the `MemoryTaskManager` task store and the
  `ProgressReporter` publish/subscribe broker);
* `internal/web` handlers (`createTask`, `listTasks`) and
  `internal/web/websocket.go` (`handleProgressWebSocket`).

Machine integers are modelled as `Nat`/`Int`: every progress value that the
worker publishes is a small integral float64 constant (0, 10, 20, 40, the
ticker values 41..95, 90, 100), and integral values of this size as well as
additions on them are exact in float64, so `Nat` is a faithful carrier.
Go channels are modelled as explicit bounded queues (lists together with the
capacity the source passes to `make`), maps as association lists, and the
pointer graph of `TaskInfo` (its `Metadata` map header) as explicit heap
locations, so that Go's shallow struct copy `taskCopy := *task` is an exact
value copy that shares locations.
-/

namespace WebpCompressor

/-! ## Task records

The `TaskInfo` struct itself lives in a `domain` source file that is not part
of the provided tree; its field set is reconstructed from its uses in
`MemoryTaskManager.CreateTask` (ID, Status, Progress, Message, InputFile,
OutputFile, CreatedAt, Metadata) and `websocket.go` (Result, Error).  The
`Config`/`Result` pointer fields behave like `metadataLoc` below and are not
needed by any claim, so only the `Metadata` reference is carried explicitly. -/

inductive TaskStatus where
  | pending
  | processing
  | completed
  | failed
  | cancelled
deriving DecidableEq

/-- Terminal statuses, as enumerated in `MemoryTaskManager.CleanupOldTasks`. -/
def TaskStatus.isTerminal : TaskStatus → Bool
  | .completed => true
  | .failed => true
  | .cancelled => true
  | _ => false

/-- One task record as held by the in-memory store.  `metadataLoc` is the heap
location of the record's `Metadata` map header: Go's `taskCopy := *task` copies
the struct fields by value, so a copy shares this location with the original. -/
structure TaskRec where
  id : String
  status : TaskStatus
  progress : ℕ
  message : String
  inputFile : String
  outputFile : String
  createdAt : ℤ
  error : String
  metadataLoc : ℕ
deriving DecidableEq

/-- The error value `domain.ErrTaskQueueFull` passed to `task.Fail` by
`WorkerPool.SubmitTask` when the queue is at capacity. -/
def errTaskQueueFull : String := "task queue is full"

/-- Modelled from the spec: `TaskInfo.Fail` lives in the `domain` task file
that is absent from the provided tree.  Per the spec, leaving `Processing`
populates exactly the failure reason, and "progress is ... forced to 100 on
terminal states", so `Fail` marks the record Failed, sets the reason, and
forces progress to 100. -/
def TaskRec.fail (t : TaskRec) (reason : String) : TaskRec :=
  { t with status := .failed, progress := 100, error := reason }

/-! ## The in-memory task store (`MemoryTaskManager`)

`tasks` models the Go map `map[string]*TaskInfo` as an association list (its
iteration order is dealt with at `ListTasks`), and `metaHeap` models the heap
of `Metadata` map objects that the records point into.  `nextLoc` plays the
role of the allocator. -/

structure Store where
  tasks : List (String × TaskRec)
  metaHeap : List (ℕ × List (String × String))
  nextLoc : ℕ
deriving DecidableEq

/-- Map lookup, `m.tasks[taskID]`. -/
def lookupTask (id : String) : List (String × TaskRec) → Option TaskRec
  | [] => none
  | (k, r) :: rest => if k = id then some r else lookupTask id rest

/-- Heap lookup of a metadata map object. -/
def lookupMeta (loc : ℕ) : List (ℕ × List (String × String)) → Option (List (String × String))
  | [] => none
  | (l, mm) :: rest => if l = loc then some mm else lookupMeta loc rest

/-- String-map lookup inside one metadata object. -/
def mapGet (k : String) : List (String × String) → Option String
  | [] => none
  | (k', v) :: rest => if k' = k then some v else mapGet k rest

/-- String-map insertion/overwrite inside one metadata object. -/
def mapSet (k v : String) : List (String × String) → List (String × String)
  | [] => [(k, v)]
  | (k', v') :: rest => if k' = k then (k, v) :: rest else (k', v') :: mapSet k v rest

/-- `MemoryTaskManager.CreateTask`: a fresh record with status Pending,
progress 0, the creation message, a fresh empty `Metadata` map, stored under
the fresh id and also returned to the caller (the same record). -/
def Store.createTask (m : Store) (freshId input output : String) (now : ℤ) :
    Store × TaskRec :=
  let t : TaskRec :=
    { id := freshId, status := .pending, progress := 0, message := "任务已创建",
      inputFile := input, outputFile := output, createdAt := now,
      error := "", metadataLoc := m.nextLoc }
  ({ m with tasks := (freshId, t) :: m.tasks,
            metaHeap := (m.nextLoc, []) :: m.metaHeap,
            nextLoc := m.nextLoc + 1 }, t)

/-- `MemoryTaskManager.GetTask`: look the record up and hand the caller the
struct copy `taskCopy := *task` (a value copy sharing `metadataLoc`), or the
"任务不存在" error. -/
def Store.getTask (m : Store) (id : String) : Option TaskRec :=
  lookupTask id m.tasks

/-- `MemoryTaskManager.UpdateTask`: replace the stored record if the id
exists, otherwise report the "任务不存在" error and change nothing. -/
def Store.updateTask (m : Store) (t : TaskRec) : Store × Option String :=
  if (lookupTask t.id m.tasks).isSome then
    ({ m with tasks := m.tasks.map (fun p => if p.1 = t.id then (p.1, t) else p) }, none)
  else
    (m, some ("任务不存在: " ++ t.id))

/-- Mutation of a metadata map object through a pointer held in some record
copy: `copy.Metadata[k] = v` in Go.  Writes through the heap location. -/
def Store.writeMetadata (m : Store) (loc : ℕ) (k v : String) : Store :=
  { m with metaHeap := m.metaHeap.map (fun p => if p.1 = loc then (p.1, mapSet k v p.2) else p) }

/-- Reading `t.Metadata[k]` for a record (or record copy) `t` against the
heap of store `m`. -/
def Store.readMetadata (m : Store) (t : TaskRec) (k : String) : Option String :=
  match lookupMeta t.metadataLoc m.metaHeap with
  | none => none
  | some mm => mapGet k mm

/-- One pass of the `MemoryTaskManager.ListTasks` loop over the map entries in
the iteration order `order`: entries while `skipped < offset` are skipped, the
loop breaks once `count >= limit`, every surviving entry is appended as a
copy.  The Go runtime iterates a map in an unspecified order, so `order` is
any permutation of the stored entries; the loop itself is `drop`/`take`. -/
def listTasksLoop (order : List TaskRec) (limit offset : ℕ) : List TaskRec :=
  (order.drop offset).take limit

/-- `MemoryTaskManager.CleanupOldTasks`: with `cutoff := now - olderThan`,
delete every record that is terminal (Completed/Failed/Cancelled) and was
created strictly before the cutoff; count the deletions only into a log line;
return `nil`. -/
def Store.cleanupOldTasks (m : Store) (now olderThan : ℤ) : Store × Option String :=
  let cutoff := now - olderThan
  ({ m with tasks :=
      m.tasks.filter (fun p => !(p.2.status.isTerminal && decide (p.2.createdAt < cutoff))) },
   none)

/-- Number of records `CleanupOldTasks` deletes (the value of its local
`deletedCount`, which the source only logs). -/
def Store.cleanupDeletedCount (m : Store) (now olderThan : ℤ) : ℕ :=
  m.tasks.length - ((m.cleanupOldTasks now olderThan).1).tasks.length

/-! ## The progress broker (`ProgressReporter`)

`subscribers map[string][]chan domain.TaskInfo` is modelled as an association
list from task id to the list of channel identifiers, and the channels
themselves (each `make(chan domain.TaskInfo, 10)`) as bounded queues held in
`chans`.  A published update is a `domain.TaskInfo` value carrying only ID,
Progress and Message. -/

structure ProgressEvent where
  id : String
  progress : ℕ
  message : String
deriving DecidableEq

/-- Capacity of one subscription queue: `make(chan domain.TaskInfo, 10)`. -/
def chanCapacity : ℕ := 10

structure Broker where
  nextCh : ℕ
  chans : List (ℕ × List ProgressEvent)
  subs : List (String × List ℕ)
deriving DecidableEq

def Broker.new : Broker := ⟨0, [], []⟩

/-- Buffer of channel `c`. -/
def lookupChan (c : ℕ) : List (ℕ × List ProgressEvent) → Option (List ProgressEvent)
  | [] => none
  | (c', buf) :: rest => if c' = c then some buf else lookupChan c rest

/-- `p.subscribers[taskID]` (the `exists` flag of the Go map read is
`Option`). -/
def lookupSubs (tid : String) : List (String × List ℕ) → Option (List ℕ)
  | [] => none
  | (t, chs) :: rest => if t = tid then some chs else lookupSubs tid rest

/-- `p.subscribers[taskID] = append(p.subscribers[taskID], ch)`: a missing key
reads as the empty slice. -/
def subsAppend (tid : String) (c : ℕ) : List (String × List ℕ) → List (String × List ℕ)
  | [] => [(tid, [c])]
  | (t, chs) :: rest =>
      if t = tid then (t, chs ++ [c]) :: rest else (t, chs) :: subsAppend tid c rest

/-- `ProgressReporter.Subscribe`: allocate a fresh queue of capacity 10,
append it to the id's subscription list, return its handle. -/
def Broker.subscribe (b : Broker) (tid : String) : Broker × ℕ :=
  (⟨b.nextCh + 1, b.chans ++ [(b.nextCh, [])], subsAppend tid b.nextCh b.subs⟩, b.nextCh)

/-- The non-blocking `select { case ch <- update: default: }`: append when the
queue has room, otherwise drop the update for that consumer. -/
def trySend (buf : List ProgressEvent) (e : ProgressEvent) : List ProgressEvent :=
  if buf.length < chanCapacity then buf ++ [e] else buf

/-- `ProgressReporter.ReportProgress`: when nobody subscribes to the id this
is a no-op; otherwise each subscribed queue receives the update through the
non-blocking send.  This is a total function of the old state: the publisher
never waits on a consumer. -/
def Broker.reportProgress (b : Broker) (tid : String) (progress : ℕ) (message : String) :
    Broker :=
  match lookupSubs tid b.subs with
  | none => b
  | some chs =>
      { b with chans :=
          b.chans.map (fun p =>
            if p.1 ∈ chs then (p.1, trySend p.2 ⟨tid, progress, message⟩) else p) }

/-- `ProgressReporter.Unsubscribe`: `delete(p.subscribers, taskID)` removes
the id's whole subscription list (every channel registered for the id, not
one of them). -/
def Broker.unsubscribe (b : Broker) (tid : String) : Broker :=
  { b with subs := b.subs.filter (fun p => p.1 ≠ tid) }

/-! ## The task worker pool (`web.WorkerPool`)

`taskQueue chan *TaskJob` is the bounded queue; the buffer the source
allocates is `make(chan *TaskJob, maxWorkers*2)`.  `SubmitTask` is the only
operation a claim needs; the job a submission enqueues is identified by its
task id.  The third component of the result collects the progress events the
call itself publishes (`SubmitTask` never publishes). -/

structure TaskPool where
  maxWorkers : ℕ
  capacity : ℕ
  queue : List String
  stopped : Bool
deriving DecidableEq

/-- `web.NewWorkerPool`: an empty, running pool whose queue buffer is
`maxWorkers*2`. -/
def newTaskPool (maxWorkers : ℕ) : TaskPool :=
  { maxWorkers := maxWorkers, capacity := maxWorkers * 2, queue := [], stopped := false }

/-- `WorkerPool.SubmitTask`: a stopped pool logs a warning and returns with no
other effect; otherwise the non-blocking `select` enqueues the job when the
buffer has room, and on a full buffer marks the task Failed with
`ErrTaskQueueFull` and stores it back through `UpdateTask`.  Every branch
returns immediately. -/
def TaskPool.submitTask (wp : TaskPool) (store : Store) (t : TaskRec) :
    TaskPool × Store × List ProgressEvent :=
  if wp.stopped then
    (wp, store, [])
  else if wp.queue.length < wp.capacity then
    ({ wp with queue := wp.queue ++ [t.id] }, store, [])
  else
    (wp, (store.updateTask (t.fail errTaskQueueFull)).1, [])

/-! ## The published progress sequence of one task run

`Worker.processTask` publishes 0.0, then `executeCompressionWithProgress`
publishes 10.0, 20.0, 40.0, starts a ticker goroutine that publishes an
estimated percentage once a second while the compression service runs, and on
success publishes 90.0 and then 100.0 after stopping the ticker.  The ticker
keeps `currentProgress` (an integral float64, hence a `Nat`): while it is
below 95 it adds 3 (above 70: 2, above 80: 1), clamps at 95, and publishes.
`tickerValues p k` is what the ticker publishes in `k` ticks starting from
`p`; the schedule parameter `k` is the number of ticks that fire before the
compression service returns. -/

/-- The increment the ticker picks from the current percentage. -/
def tickerIncrement (p : ℕ) : ℕ :=
  if 80 < p then 1 else if 70 < p then 2 else 3

/-- One tick: add the increment, clamp to 95. -/
def tickerNext (p : ℕ) : ℕ :=
  min (p + tickerIncrement p) 95

/-- The percentages the ticker goroutine publishes in `k` ticks starting from
`p`.  At 95 and above the `currentProgress < 95.0` guard stops both the
updates and the publishing, so the remaining ticks contribute nothing. -/
def tickerValues (p : ℕ) : ℕ → List ℕ
  | 0 => []
  | k + 1 => if p < 95 then tickerNext p :: tickerValues (tickerNext p) k else []

/-- The whole sequence of progress values a successful run publishes through
`ReportProgress` (and persists via `UpdateProgress`/`UpdateTask`) when the
ticker fires `k` times while the compression service runs: the 0% start event
of `processTask`, the fixed 10/20/40 milestones, the ticker estimates, then
the fixed 90 ("生成输出文件...") and the final 100. -/
def publishedProgress (k : ℕ) : List ℕ :=
  [0, 10, 20, 40] ++ tickerValues 40 k ++ [90, 100]

/-! ## The frame worker pool (`domain.WorkerPool`)

`NewWorkerPool(maxWorkers)` allocates `jobs := make(chan *FrameInfo,
maxWorkers*2)` and `results := make(chan error, maxWorkers*2)`.  `Start`
launches `M` workers, each looping `for frame := range jobs { ...; results <-
processor(...) }`.  The caller (`CompressFramesParallel`) submits the `N`
frames one by one from its own goroutine, calls `Close`, then `Wait`, which
first blocks in `wg.Wait()` and only afterwards drains `results`.

The concurrent system is embedded as a small-step transition relation over an
abstract state: queue contents are lengths (frames are interchangeable for
the termination question), the `M` symmetric workers are counted by phase
(`idle`: blocked receiving a job, `sending`: holding a processed result and
about to send it, `done`: exited), and the caller's program counter is
`MainPhase`.  A worker blocked in `results <- err` has no enabled transition
while `resultsQ = 2*M` — exactly the Go semantics of a send on a full
channel.  Context cancellation is not modelled: its branch also ends in
`wp.results <- ctx.Err()`, so it enables nothing that the modelled
transitions do not. -/

inductive MainPhase where
  | submitting
  | waiting
  | returned
deriving DecidableEq

structure FramePoolState where
  jobsQ : ℕ
  resultsQ : ℕ
  submitted : ℕ
  closed : Bool
  idle : ℕ
  sending : ℕ
  done : ℕ
  main : MainPhase
deriving DecidableEq

/-- The state right after `NewWorkerPool(M)` and `Start`: empty channels, all
`M` workers blocked on the empty `jobs` channel, the caller about to submit
the first frame. -/
def framePoolInit (M : ℕ) : FramePoolState :=
  { jobsQ := 0, resultsQ := 0, submitted := 0, closed := false,
    idle := M, sending := 0, done := 0, main := .submitting }

/-- One interleaving step of the frame pool system with `M` workers and `N`
submitted frame units. -/
inductive FrameStep (M N : ℕ) : FramePoolState → FramePoolState → Prop where
  | submit (s : FramePoolState)
      (h1 : s.main = .submitting) (h2 : s.submitted < N) (h3 : s.jobsQ < 2 * M) :
      FrameStep M N s { s with jobsQ := s.jobsQ + 1, submitted := s.submitted + 1 }
  | close (s : FramePoolState)
      (h1 : s.main = .submitting) (h2 : s.submitted = N) :
      FrameStep M N s { s with closed := true, main := .waiting }
  | take (s : FramePoolState)
      (h1 : 0 < s.idle) (h2 : 0 < s.jobsQ) :
      FrameStep M N s
        { s with jobsQ := s.jobsQ - 1, idle := s.idle - 1, sending := s.sending + 1 }
  | send (s : FramePoolState)
      (h1 : 0 < s.sending) (h2 : s.resultsQ < 2 * M) :
      FrameStep M N s
        { s with sending := s.sending - 1, idle := s.idle + 1, resultsQ := s.resultsQ + 1 }
  | exits (s : FramePoolState)
      (h1 : 0 < s.idle) (h2 : s.closed = true) (h3 : s.jobsQ = 0) :
      FrameStep M N s { s with idle := s.idle - 1, done := s.done + 1 }
  | ret (s : FramePoolState)
      (h1 : s.main = .waiting) (h2 : s.done = M) :
      FrameStep M N s { s with main := .returned }

/-- States reachable from the start of `CompressFramesParallel`'s use of the
pool.  `main = .returned` in a reachable state means `Wait()` has returned. -/
inductive FrameReachable (M N : ℕ) : FramePoolState → Prop where
  | init : FrameReachable M N (framePoolInit M)
  | step {s t : FramePoolState} :
      FrameReachable M N s → FrameStep M N s t → FrameReachable M N t

/-- The inductive invariant of the frame pool system (for `0 < M`): worker
phases partition the `M` workers; every submitted job is buffered, held by a
sending worker, or already a buffered result; the results buffer never
exceeds its capacity `2*M`; bookkeeping of `closed` and the main phases. -/
def FrameInv (M N : ℕ) (s : FramePoolState) : Prop :=
  s.idle + s.sending + s.done = M ∧
  s.jobsQ + s.resultsQ + s.sending = s.submitted ∧
  s.resultsQ ≤ 2 * M ∧
  s.submitted ≤ N ∧
  (s.closed = true → s.main ≠ .submitting ∧ s.submitted = N) ∧
  (0 < s.done → s.closed = true) ∧
  (s.done = M → s.jobsQ = 0) ∧
  (s.main = .returned → s.done = M)

/-! ## The `POST /tasks` handler (`Server.createTask`)

The request body is bound with
`InputFile string binding:"required"` and
`Quality int binding:"required,min=0,max=100"`.  JSON fields are modelled as
`Option`s; a missing field binds to the Go zero value, and the validator's
`required` then fails on the zero value — for the `int` field that means a
quality of 0 fails binding exactly like an absent one.  After binding, the
handler stats `filepath.Join(uploadDir, req.InputFile)` (modelled by
membership of the joined path in the list `fs` of existing files), creates
the record (`CreateTask` never returns an error), submits it to the task
worker pool, and answers 201; every validation failure answers 400 before the
record is created. -/

structure CreateTaskReq where
  inputFile : Option String
  quality : Option ℤ
  preset : Option String
  lossless : Option Bool
  parallel : Option Bool
  outputName : Option String
deriving DecidableEq

/-- The value the JSON binder leaves in `req.InputFile`. -/
def CreateTaskReq.boundInput (r : CreateTaskReq) : String := r.inputFile.getD ""

/-- The value the JSON binder leaves in `req.Quality`. -/
def CreateTaskReq.boundQuality (r : CreateTaskReq) : ℤ := r.quality.getD 0

/-- `ShouldBindJSON` succeeds iff every `binding` tag validates: `required`
fails on the zero value of the field ("" for the string, 0 for the int), and
`min=0,max=100` bound the bound integer. -/
def CreateTaskReq.bindingValid (r : CreateTaskReq) : Bool :=
  decide (r.boundInput ≠ "") && decide (r.boundQuality ≠ 0) &&
  decide (0 ≤ r.boundQuality) && decide (r.boundQuality ≤ 100)

/-- `filepath.Join` on the two segments the handler joins. -/
def joinPath (dir name : String) : String := dir ++ "/" ++ name

/-- The `Server.createTask` handler.  `fs` is the set of existing files,
`freshId` the UUID drawn for the record, `now` the creation instant.  The
result is the HTTP status together with the new store and pool.  The output
path the handler derives from `OutputName`/the default naming scheme is not
touched by any claim and is elided to the constant `"out"`. -/
def createTaskHandler (fs : List String) (uploadDir : String) (wp : TaskPool) (m : Store)
    (r : CreateTaskReq) (freshId : String) (now : ℤ) :
    ℕ × Store × TaskPool :=
  if ¬ r.bindingValid then (400, m, wp)
  else if joinPath uploadDir r.boundInput ∉ fs then (400, m, wp)
  else
    let c := m.createTask freshId (joinPath uploadDir r.boundInput) "out" now
    let sub := wp.submitTask c.1 c.2
    (201, sub.2.1, sub.1)

/-- A list of naturals is non-decreasing (each element at most its
successor). -/
def nondecreasing : List ℕ → Bool
  | [] => true
  | [_] => true
  | a :: b :: rest => decide (a ≤ b) && nondecreasing (b :: rest)

/-- A list of records is in non-increasing creation-time order ("按创建时间倒序",
the order the `ListTasks` comment promises). -/
def sortedByCreatedDesc : List TaskRec → Bool
  | [] => true
  | [_] => true
  | a :: b :: rest => decide (b.createdAt ≤ a.createdAt) && sortedByCreatedDesc (b :: rest)

/-! ## Concrete instances used by counterexamples and witnesses -/

/-- A bare stored record with the given id, status and creation time. -/
def plainRec (id : String) (st : TaskStatus) (created : ℤ) : TaskRec :=
  { id := id, status := st, progress := 0, message := "", inputFile := "",
    outputFile := "", createdAt := created, error := "", metadataLoc := 0 }

/-- Broker after two live subscriptions to task "t" (two browser tabs):
the state together with the two channel handles. -/
def twoSubsBroker : Broker × ℕ × ℕ :=
  let s1 := Broker.new.subscribe "t"
  let s2 := s1.1.subscribe "t"
  (s2.1, s1.2, s2.2)

/-- The same broker after the second connection closed (its deferred
`Unsubscribe("t")`) and a subsequent publication for "t". -/
def pubAfterUnsub : Broker :=
  (twoSubsBroker.1.unsubscribe "t").reportProgress "t" 50 "处理中"

/-- A broker with one subscription to "t" whose queue already holds 10
events, and one fresh subscription: exercises both the drop and the deliver
branch. -/
def mixedBroker : Broker :=
  { nextCh := 2,
    chans := [(0, List.replicate 10 ⟨"t", 1, "x"⟩), (1, [])],
    subs := [("t", [0, 1])] }

/-- Store and returned record right after `CreateTask` on an empty manager. -/
def createdOnEmpty : Store × TaskRec :=
  (Store.mk [] [] 0).createTask "t1" "a.webp" "b.webp" 0

/-- The same store after the caller mutates the *returned copy*'s metadata
map: `copy.Metadata["k"] = "v"`. -/
def mutatedThroughCopy : Store :=
  createdOnEmpty.1.writeMetadata createdOnEmpty.2.metadataLoc "k" "v"

/-- A store holding one terminal record older than any positive cutoff. -/
def oneOldTerminal : Store :=
  ⟨[("a", plainRec "a" .completed 0)], [], 1⟩

/-- A store holding two such records. -/
def twoOldTerminal : Store :=
  ⟨[("a", plainRec "a" .completed 0), ("b", plainRec "b" .failed 0)], [], 2⟩

/-- Two records created at instants 1 and 2. -/
def olderRec : TaskRec := plainRec "older" .completed 1

def newerRec : TaskRec := plainRec "newer" .completed 2

/-- A `POST /tasks` body naming an existing upload and `"quality": 0`. -/
def zeroQualityReq : CreateTaskReq :=
  ⟨some "f.webp", some 0, none, none, none, none⟩

/-- The file system for the handler instances: the referenced upload exists. -/
def handlerFs : List String := ["uploads/f.webp"]

/-- A running 1-worker task pool whose 2-slot queue is already full. -/
def fullPool : TaskPool :=
  { maxWorkers := 1, capacity := 2, queue := ["q1", "q2"], stopped := false }

/-- A stopped task pool. -/
def stoppedPool : TaskPool :=
  { maxWorkers := 1, capacity := 2, queue := [], stopped := true }

/-- A pending record and a store holding it, as right after `CreateTask`. -/
def pendingRec : TaskRec := plainRec "t9" .pending 0

def storeWithPending : Store := ⟨[("t9", pendingRec)], [(0, [])], 1⟩

/-! ## Helper lemmas -/

theorem lookupTask_map_replace (t : TaskRec) (l : List (String × TaskRec)) :
    lookupTask t.id (l.map fun p => if p.1 = t.id then (p.1, t) else p) =
      if (lookupTask t.id l).isSome then some t else none := by
  induction l with
  | nil => rfl
  | cons hd tl ih =>
      obtain ⟨a, b⟩ := hd
      simp only [List.map_cons]
      by_cases h : a = t.id
      · rw [if_pos h]
        simp [lookupTask, h]
      · rw [if_neg h]
        simp [lookupTask, h, ih]

theorem updateTask_lookup (m : Store) (t : TaskRec)
    (h : (lookupTask t.id m.tasks).isSome) :
    ((m.updateTask t).1).getTask t.id = some t := by
  simp [Store.updateTask, h, Store.getTask, lookupTask_map_replace]

theorem updateTask_length (m : Store) (t : TaskRec) :
    ((m.updateTask t).1).tasks.length = m.tasks.length := by
  by_cases h : (lookupTask t.id m.tasks).isSome
  · simp [Store.updateTask, h]
  · simp [Store.updateTask, h]

theorem lookupChan_map_trySend (c : ℕ) (chs : List ℕ) (e : ProgressEvent)
    (l : List (ℕ × List ProgressEvent)) (buf : List ProgressEvent)
    (h : lookupChan c l = some buf) :
    lookupChan c (l.map fun p => if p.1 ∈ chs then (p.1, trySend p.2 e) else p) =
      some (if c ∈ chs then trySend buf e else buf) := by
  induction l with
  | nil => simp [lookupChan] at h
  | cons hd tl ih =>
      obtain ⟨a, b⟩ := hd
      simp only [List.map_cons]
      by_cases hmem : a ∈ chs
      · rw [if_pos hmem]
        by_cases hc : a = c
        · simp only [lookupChan, if_pos hc] at h
          subst hc
          obtain rfl : b = buf := Option.some.inj h
          simp [lookupChan, hmem]
        · simp only [lookupChan, if_neg hc] at h
          simp [lookupChan, hc, ih h]
      · rw [if_neg hmem]
        by_cases hc : a = c
        · simp only [lookupChan, if_pos hc] at h
          subst hc
          obtain rfl : b = buf := Option.some.inj h
          simp [lookupChan, hmem]
        · simp only [lookupChan, if_neg hc] at h
          simp [lookupChan, hc, ih h]

theorem lookupSubs_filter_self (tid : String) (l : List (String × List ℕ)) :
    lookupSubs tid (l.filter fun p => p.1 ≠ tid) = none := by
  induction l with
  | nil => rfl
  | cons hd tl ih =>
      obtain ⟨a, b⟩ := hd
      by_cases h : a = tid
      · simpa [List.filter, h] using ih
      · simpa [List.filter, h, lookupSubs] using ih

theorem lookupSubs_unsubscribe (b : Broker) (tid : String) :
    lookupSubs tid (b.unsubscribe tid).subs = none :=
  lookupSubs_filter_self tid b.subs

theorem lookupMeta_map_set (loc : ℕ) (k v : String)
    (l : List (ℕ × List (String × String))) (mm : List (String × String))
    (h : lookupMeta loc l = some mm) :
    lookupMeta loc (l.map fun p => if p.1 = loc then (p.1, mapSet k v p.2) else p) =
      some (mapSet k v mm) := by
  induction l with
  | nil => simp [lookupMeta] at h
  | cons hd tl ih =>
      obtain ⟨a, b⟩ := hd
      simp only [List.map_cons]
      by_cases hc : a = loc
      · rw [if_pos hc]
        simp only [lookupMeta, if_pos hc] at h
        subst hc
        obtain rfl : b = mm := Option.some.inj h
        simp [lookupMeta]
      · rw [if_neg hc]
        simp only [lookupMeta, if_neg hc] at h
        simp [lookupMeta, hc, ih h]

theorem mapGet_mapSet (k v : String) (mm : List (String × String)) :
    mapGet k (mapSet k v mm) = some v := by
  induction mm with
  | nil => simp [mapSet, mapGet]
  | cons hd tl ih =>
      obtain ⟨a, b⟩ := hd
      by_cases h : a = k
      · simp [mapSet, mapGet, h]
      · simp [mapSet, mapGet, h, ih]

theorem frameInv_init (M N : ℕ) : FrameInv M N (framePoolInit M) := by
  refine ⟨by simp [framePoolInit], by simp [framePoolInit], by simp [framePoolInit],
    by simp [framePoolInit], ?_, ?_, ?_, ?_⟩
  · intro hcl
    simp [framePoolInit] at hcl
  · intro hdone
    simp [framePoolInit] at hdone
  · intro _
    simp [framePoolInit]
  · intro hret
    simp [framePoolInit] at hret

theorem frameInv_step (M N : ℕ) (hM : 0 < M) (s t : FramePoolState)
    (hs : FrameInv M N s) (hst : FrameStep M N s t) : FrameInv M N t := by
  obtain ⟨i1, i2, i3, i4, i5, i6, i7, i8⟩ := hs
  cases hst with
  | submit h1 h2 h3 =>
      refine ⟨by simpa using i1, by simp; omega, by simpa using i3, by simp; omega,
        fun hcl => (((i5 (by simpa using hcl)).1) h1).elim, by simpa using i6, ?_, ?_⟩
      · intro hdone
        simp only at hdone
        have hcl : s.closed = true := i6 (by omega)
        exact (((i5 hcl).1) h1).elim
      · intro hret
        simp only [h1] at hret
        exact absurd hret (by decide)
  | close h1 h2 =>
      refine ⟨by simpa using i1, by simpa using i2, by simpa using i3, by simpa using i4,
        ?_, fun _ => rfl, by simpa using i7, ?_⟩
      · intro _
        exact ⟨by simp, by simpa using h2⟩
      · intro hret
        simp only at hret
        cases hret
  | take h1 h2 =>
      refine ⟨by simp; omega, by simp; omega, by simpa using i3, by simpa using i4,
        by simpa using i5, by simpa using i6, ?_, ?_⟩
      · intro hdone
        simp only at hdone ⊢
        omega
      · intro hret
        simp only at hret
        have := i8 hret
        simp only
        omega
  | send h1 h2 =>
      refine ⟨by simp; omega, by simp; omega, by simp; omega, by simpa using i4,
        by simpa using i5, by simpa using i6, ?_, ?_⟩
      · intro hdone
        simp only at hdone ⊢
        omega
      · intro hret
        simp only at hret ⊢
        have := i8 hret
        omega
  | exits h1 h2 h3 =>
      refine ⟨by simp; omega, by simpa using i2, by simpa using i3, by simpa using i4,
        by simpa using i5, fun _ => by simpa using h2, fun _ => by simpa using h3, ?_⟩
      · intro hret
        simp only at hret ⊢
        have := i8 hret
        omega
  | ret h1 h2 =>
      refine ⟨by simpa using i1, by simpa using i2, by simpa using i3, by simpa using i4,
        ?_, by simpa using i6, by simpa using i7, fun _ => by simpa using h2⟩
      · intro hcl
        refine ⟨by simp, by simpa using (i5 (by simpa using hcl)).2⟩

theorem frameInv_reachable (M N : ℕ) (hM : 0 < M) (s : FramePoolState)
    (h : FrameReachable M N s) : FrameInv M N s := by
  induction h with
  | init => exact frameInv_init M N
  | step hr hstep ih => exact frameInv_step M N hM _ _ ih hstep

theorem bindingValid_iff (r : CreateTaskReq) :
    r.bindingValid = true ↔
      (r.boundInput ≠ "" ∧ 1 ≤ r.boundQuality ∧ r.boundQuality ≤ 100) := by
  simp only [CreateTaskReq.bindingValid, Bool.and_eq_true, decide_eq_true_eq]
  constructor
  · rintro ⟨⟨⟨g1, g2⟩, g3⟩, g4⟩
    exact ⟨g1, by omega, g4⟩
  · rintro ⟨g1, g2, g3⟩
    exact ⟨⟨⟨g1, by omega⟩, by omega⟩, g3⟩

theorem submitTask_store_length (wp : TaskPool) (store : Store) (t : TaskRec) :
    ((wp.submitTask store t).2.1).tasks.length = store.tasks.length := by
  by_cases h1 : wp.stopped
  · simp [TaskPool.submitTask, h1]
  · by_cases h2 : wp.queue.length < wp.capacity
    · simp [TaskPool.submitTask, h1, h2]
    · simp [TaskPool.submitTask, h1, h2, updateTask_length]

/-! ## Claim theorems -/

/-- C1: the claim says the published and persisted progress sequence of a task
is non-decreasing and exactly 100 on terminal states.  The code violates the
monotonicity: when the compression service runs long enough for the background
ticker to estimate past 90 (25 one-second ticks), the fixed 90% callback that
`executeCompressionWithProgress` publishes after the service returns is below
the ticker's last estimate 91, so the sequence decreases (…, 91, 90, 100).
The terminal value is still 100. -/
theorem C1_published_progress_not_monotone :
    publishedProgress 25 =
      [0, 10, 20, 40, 43, 46, 49, 52, 55, 58, 61, 64, 67, 70, 73, 75, 77, 79,
        81, 82, 83, 84, 85, 86, 87, 88, 89, 90, 91, 90, 100] ∧
    nondecreasing (publishedProgress 25) = false ∧
    (publishedProgress 25).getLast? = some 100 := by
  refine ⟨by decide, by decide, by decide⟩

/-- C2: the claim says `Wait()` terminates for every worker count `M ≥ 1` and
unit count `N`.  In fact no execution of the pool can ever reach a state where
`Wait()` has returned when `N > 2*M`: every processed unit puts one value into
the `results` channel of capacity `2*M`, and `Wait()` drains `results` only
after `wg.Wait()`, which requires all `N` results to be buffered at once. -/
theorem C2_wait_cannot_return_when_units_exceed_buffer (M N : ℕ) (hM : 1 ≤ M)
    (hN : 2 * M < N) (s : FramePoolState) (h : FrameReachable M N s) :
    s.main ≠ MainPhase.returned := by
  intro hret
  obtain ⟨i1, i2, i3, i4, i5, i6, i7, i8⟩ := frameInv_reachable M N (by omega) s h
  have hdone : s.done = M := i8 hret
  have hcl : s.closed = true := i6 (by omega)
  have hsub : s.submitted = N := (i5 hcl).2
  have hjq : s.jobsQ = 0 := i7 hdone
  omega

/-- C2 witness: the hypotheses hold for one worker, three frame units and the
initial state. -/
theorem C2_wait_cannot_return_when_units_exceed_buffer_witness :
    (1 ≤ 1 ∧ 2 * 1 < 3 ∧ FrameReachable 1 3 (framePoolInit 1)) ∧
    (framePoolInit 1).main ≠ MainPhase.returned :=
  ⟨⟨le_refl 1, by omega, FrameReachable.init⟩,
   C2_wait_cannot_return_when_units_exceed_buffer 1 3 (le_refl 1) (by omega)
     (framePoolInit 1) FrameReachable.init⟩

/-- C3: the task worker pool's queue is built with capacity `2*W`; a running
pool with room enqueues the submission; a running pool with a full queue
returns at once (the function is total: the submitter never blocks), publishes
nothing, leaves the queue as it is, and stores the task back marked Failed
with the queue-full reason — the record is never silently dropped. -/
theorem C3_queue_capacity_two_w_and_full_queue_fails_task (W : ℕ) (wp : TaskPool)
    (store : Store) (t : TaskRec) (hrun : wp.stopped = false) :
    (newTaskPool W).capacity = 2 * W ∧
    (wp.queue.length < wp.capacity →
      wp.submitTask store t = ({ wp with queue := wp.queue ++ [t.id] }, store, [])) ∧
    (wp.capacity ≤ wp.queue.length →
      (wp.submitTask store t).1 = wp ∧
      (wp.submitTask store t).2.2 = [] ∧
      (lookupTask t.id store.tasks = some t →
        ((wp.submitTask store t).2.1).getTask t.id = some (t.fail errTaskQueueFull))) := by
  refine ⟨by simp [newTaskPool, Nat.mul_comm], ?_, ?_⟩
  · intro hroom
    simp [TaskPool.submitTask, hrun, hroom]
  · intro hfull
    have hnroom : ¬ wp.queue.length < wp.capacity := by omega
    refine ⟨by simp [TaskPool.submitTask, hrun, hnroom],
      by simp [TaskPool.submitTask, hrun, hnroom], ?_⟩
    intro hlook
    have hsome : (lookupTask (t.fail errTaskQueueFull).id store.tasks).isSome := by
      simp [TaskRec.fail, hlook]
    simp only [TaskPool.submitTask, hrun, if_neg hnroom, Bool.false_eq_true, if_false]
    exact updateTask_lookup store (t.fail errTaskQueueFull) hsome

/-- C3 witness: a running one-worker pool whose two-slot queue is full fails
the pending task with the queue-full reason. -/
theorem C3_queue_capacity_two_w_and_full_queue_fails_task_witness :
    fullPool.stopped = false ∧ (newTaskPool 1).capacity = 2 * 1 ∧
    ((fullPool.submitTask storeWithPending pendingRec).2.1).getTask pendingRec.id
      = some (pendingRec.fail errTaskQueueFull) := by
  have h := C3_queue_capacity_two_w_and_full_queue_fails_task 1 fullPool storeWithPending
    pendingRec rfl
  exact ⟨rfl, h.1, (h.2.2 (by decide)).2.2 (by decide)⟩

/-- C4 counterexample: two live subscriptions to "t" exist (channels 0 and 1);
the second connection closes, running its deferred `Unsubscribe("t")`; a later
publication for "t" is then delivered to neither — in particular the first,
still-open subscription receives nothing, contradicting the claim that
unsubscribing one subscription does not stop delivery to the other. -/
theorem C4_counterexample_unsubscribe_kills_other_subscription :
    lookupSubs "t" twoSubsBroker.1.subs = some [0, 1] ∧
    lookupChan 0 pubAfterUnsub.chans = some [] ∧
    lookupChan 1 pubAfterUnsub.chans = some [] := by
  refine ⟨by decide, by decide, by decide⟩

/-- C4 (amended): while both subscriptions are registered, each receives every
published event independently; but `Unsubscribe(taskID)` deletes the whole
subscription list of the id, so the teardown run when either connection closes
stops delivery to both — afterwards publications for the id are no-ops. -/
theorem C4_delivery_independent_until_unsubscribe_removes_all (b : Broker)
    (tid : String) (prog : ℕ) (msg : String) (chs : List ℕ) (c₁ c₂ : ℕ)
    (b₁ b₂ : List ProgressEvent)
    (hs : lookupSubs tid b.subs = some chs) (h1 : c₁ ∈ chs) (h2 : c₂ ∈ chs)
    (hc1 : lookupChan c₁ b.chans = some b₁) (hc2 : lookupChan c₂ b.chans = some b₂)
    (hl1 : b₁.length < chanCapacity) (hl2 : b₂.length < chanCapacity) :
    lookupChan c₁ (b.reportProgress tid prog msg).chans = some (b₁ ++ [⟨tid, prog, msg⟩]) ∧
    lookupChan c₂ (b.reportProgress tid prog msg).chans = some (b₂ ++ [⟨tid, prog, msg⟩]) ∧
    lookupSubs tid (b.unsubscribe tid).subs = none ∧
    (b.unsubscribe tid).reportProgress tid prog msg = b.unsubscribe tid := by
  refine ⟨?_, ?_, ?_, ?_⟩
  · simp only [Broker.reportProgress, hs]
    have := lookupChan_map_trySend c₁ chs ⟨tid, prog, msg⟩ b.chans b₁ hc1
    simpa [trySend, h1, hl1] using this
  · simp only [Broker.reportProgress, hs]
    have := lookupChan_map_trySend c₂ chs ⟨tid, prog, msg⟩ b.chans b₂ hc2
    simpa [trySend, h2, hl2] using this
  · exact lookupSubs_unsubscribe b tid
  · simp [Broker.reportProgress, lookupSubs_unsubscribe b tid]

/-- C4 witness: the amended statement instantiated on the broker with two
fresh subscriptions to "t". -/
theorem C4_delivery_independent_until_unsubscribe_removes_all_witness :
    lookupChan 0 (twoSubsBroker.1.reportProgress "t" 50 "处理中").chans
      = some [⟨"t", 50, "处理中"⟩] ∧
    lookupChan 1 (twoSubsBroker.1.reportProgress "t" 50 "处理中").chans
      = some [⟨"t", 50, "处理中"⟩] ∧
    lookupSubs "t" (twoSubsBroker.1.unsubscribe "t").subs = none := by
  have h := C4_delivery_independent_until_unsubscribe_removes_all twoSubsBroker.1
    "t" 50 "处理中" [0, 1] 0 1 [] [] (by decide) (by decide) (by decide)
    (by decide) (by decide) (by decide) (by decide)
  exact ⟨h.1, h.2.1, h.2.2.1⟩

/-- C5: `ReportProgress` is a total function of the broker state (the
publisher never blocks, whatever the subscriber state); with no subscription
for the id it is a no-op; otherwise each subscribed queue with room receives
the event appended, and a full queue (capacity 10) drops it for that consumer
while other queues are unaffected. -/
theorem C5_publish_delivers_or_drops_never_blocks (b : Broker) (tid : String)
    (prog : ℕ) (msg : String) :
    (lookupSubs tid b.subs = none → b.reportProgress tid prog msg = b) ∧
    (∀ chs c buf, lookupSubs tid b.subs = some chs →
      lookupChan c b.chans = some buf →
      lookupChan c (b.reportProgress tid prog msg).chans =
        some (if c ∈ chs then
                (if buf.length < chanCapacity then buf ++ [⟨tid, prog, msg⟩] else buf)
              else buf)) := by
  constructor
  · intro h
    simp [Broker.reportProgress, h]
  · intro chs c buf hs hc
    simp only [Broker.reportProgress, hs]
    have := lookupChan_map_trySend c chs ⟨tid, prog, msg⟩ b.chans buf hc
    simpa [trySend] using this

/-- C5 witness: on a broker with a full queue (channel 0) and a fresh queue
(channel 1) subscribed to "t", a publication is dropped for 0 and delivered
to 1. -/
theorem C5_publish_delivers_or_drops_never_blocks_witness :
    lookupChan 0 (mixedBroker.reportProgress "t" 60 "hi").chans
      = some (List.replicate 10 ⟨"t", 1, "x"⟩) ∧
    lookupChan 1 (mixedBroker.reportProgress "t" 60 "hi").chans
      = some [⟨"t", 60, "hi"⟩] := by
  have h := (C5_publish_delivers_or_drops_never_blocks mixedBroker "t" 60 "hi").2
  constructor
  · have h0 := h [0, 1] 0 (List.replicate 10 ⟨"t", 1, "x"⟩) (by decide) (by decide)
    simpa using h0
  · have h1 := h [0, 1] 1 [] (by decide) (by decide)
    simpa using h1

/-- C6 counterexample: `GetTask` on the store right after `CreateTask`
returns the record struct copy; setting `"k" → "v"` in the Metadata map
through that returned copy changes what reading the metadata of the
still-stored record yields (`none` before, `some "v"` after): the returned
value is not an independent copy of the authoritative record. -/
theorem C6_counterexample_copy_mutation_reaches_store :
    createdOnEmpty.1.getTask "t1" = some createdOnEmpty.2 ∧
    createdOnEmpty.1.readMetadata createdOnEmpty.2 "k" = none ∧
    mutatedThroughCopy.getTask "t1" = some createdOnEmpty.2 ∧
    mutatedThroughCopy.readMetadata createdOnEmpty.2 "k" = some "v" := by
  refine ⟨by decide, by decide, by decide, by decide⟩

/-- C6 (amended): `GetTask` returns the shallow struct copy
`taskCopy := *task`: its top-level fields (status, progress, message, …) are
values independent of the stored record, but the `Metadata` (likewise
`Config`/`Result`) reference is shared — a write through the copy's map is
visible when the stored record's metadata is read afterwards, while the task
map itself still holds the same record struct. -/
theorem C6_get_returns_shallow_copy_sharing_metadata (m : Store) (id : String)
    (t : TaskRec) (k v : String) (h : m.getTask id = some t)
    (hloc : (lookupMeta t.metadataLoc m.metaHeap).isSome = true) :
    (m.writeMetadata t.metadataLoc k v).getTask id = some t ∧
    (m.writeMetadata t.metadataLoc k v).readMetadata t k = some v := by
  constructor
  · simpa [Store.getTask, Store.writeMetadata] using h
  · obtain ⟨mm, hmm⟩ := Option.isSome_iff_exists.mp hloc
    simp [Store.readMetadata, Store.writeMetadata,
      lookupMeta_map_set t.metadataLoc k v m.metaHeap mm hmm, mapGet_mapSet]

/-- C6 witness: the amended statement on the freshly created store. -/
theorem C6_get_returns_shallow_copy_sharing_metadata_witness :
    createdOnEmpty.1.getTask "t1" = some createdOnEmpty.2 ∧
    (createdOnEmpty.1.writeMetadata createdOnEmpty.2.metadataLoc "k2" "v2").readMetadata
      createdOnEmpty.2 "k2" = some "v2" := by
  have h := C6_get_returns_shallow_copy_sharing_metadata createdOnEmpty.1 "t1"
    createdOnEmpty.2 "k2" "v2" (by decide) (by decide)
  exact ⟨by decide, h.2⟩

/-- C7 counterexample: the operation's return value carries no removal count:
two stores from which 1 and 2 records are purged produce the identical return
value (the `nil` error), so `CleanupOldTasks` does not return the count of
records removed (it only logs it). -/
theorem C7_counterexample_count_not_returned :
    (oneOldTerminal.cleanupOldTasks 100 10).2 = (twoOldTerminal.cleanupOldTasks 100 10).2 ∧
    oneOldTerminal.cleanupDeletedCount 100 10 = 1 ∧
    twoOldTerminal.cleanupDeletedCount 100 10 = 2 := by
  refine ⟨by decide, by decide, by decide⟩

/-- C7 (amended): `CleanupOldTasks` keeps exactly the records that are not
(terminal and created strictly before `now - olderThan`): terminal records
strictly older than the cutoff are removed, Pending/Processing records stay
regardless of age, and the call returns only the `nil` error — the number
removed is logged, not returned. -/
theorem C7_cleanup_removes_exactly_old_terminal (m : Store) (now olderThan : ℤ)
    (id : String) (t : TaskRec) :
    ((id, t) ∈ ((m.cleanupOldTasks now olderThan).1).tasks ↔
      ((id, t) ∈ m.tasks ∧
        ¬(t.status.isTerminal = true ∧ t.createdAt < now - olderThan))) ∧
    (m.cleanupOldTasks now olderThan).2 = none := by
  constructor
  · simp only [Store.cleanupOldTasks, List.mem_filter]
    exact and_congr_right fun _ => by
      cases hterm : t.status.isTerminal <;>
        by_cases hold : t.createdAt < now - olderThan <;>
          simp [hterm, hold]
  · rfl

/-- C8 counterexample: a request whose quality is 0 — inside the claimed
valid range 0–100 — and whose referenced upload exists is nevertheless
rejected with 400 and no record is created: the validator's `required` tag
fails on the integer zero value before `min=0` is ever consulted. -/
theorem C8_counterexample_quality_zero_rejected :
    (0 ≤ zeroQualityReq.boundQuality ∧ zeroQualityReq.boundQuality ≤ 100) ∧
    joinPath "uploads" zeroQualityReq.boundInput ∈ handlerFs ∧
    (createTaskHandler handlerFs "uploads" (newTaskPool 2) (Store.mk [] [] 0)
        zeroQualityReq "id1" 5).1 = 400 ∧
    ((createTaskHandler handlerFs "uploads" (newTaskPool 2) (Store.mk [] [] 0)
        zeroQualityReq "id1" 5).2.1).tasks.length = 0 := by
  refine ⟨by decide, by decide, by decide, by decide⟩

/-- C8 (amended): `createTask` answers 201 and creates exactly one record iff
the input reference binds non-empty, the quality binds into 1–100 (0 behaves
like a missing quality because `required` rejects the zero value), and the
referenced upload exists; otherwise it answers 400 and neither the store nor
the pool changes. -/
theorem C8_create_task_valid_iff_bound_quality (fs : List String) (uploadDir : String)
    (wp : TaskPool) (m : Store) (r : CreateTaskReq) (freshId : String) (now : ℤ) :
    ((createTaskHandler fs uploadDir wp m r freshId now).1 = 201 ↔
      (r.boundInput ≠ "" ∧ 1 ≤ r.boundQuality ∧ r.boundQuality ≤ 100 ∧
        joinPath uploadDir r.boundInput ∈ fs)) ∧
    ((createTaskHandler fs uploadDir wp m r freshId now).1 = 201 →
      ((createTaskHandler fs uploadDir wp m r freshId now).2.1).tasks.length
        = m.tasks.length + 1) ∧
    ((createTaskHandler fs uploadDir wp m r freshId now).1 ≠ 201 →
      (createTaskHandler fs uploadDir wp m r freshId now).1 = 400 ∧
      (createTaskHandler fs uploadDir wp m r freshId now).2 = (m, wp)) := by
  by_cases hb : r.bindingValid
  · by_cases hf : joinPath uploadDir r.boundInput ∈ fs
    · have hmem := (bindingValid_iff r).mp hb
      refine ⟨?_, ?_, ?_⟩
      · simp only [createTaskHandler, hb, not_true, if_false, hf, not_false_iff]
        simp [hmem, hf]
      · intro _
        simp only [createTaskHandler, hb, not_true, if_false, hf, not_false_iff]
        simp [submitTask_store_length, Store.createTask]
      · intro habs
        have h201 : (createTaskHandler fs uploadDir wp m r freshId now).1 = 201 := by
          simp [createTaskHandler, hb, hf]
        exact absurd h201 habs
    · refine ⟨?_, ?_, ?_⟩
      · simp [createTaskHandler, hb, hf]
      · intro habs
        simp [createTaskHandler, hb, hf] at habs
      · intro _
        simp [createTaskHandler, hb, hf]
  · have hmem := (bindingValid_iff r).not.mp (by simpa using hb)
    have hbf : r.bindingValid = false := by simpa using hb
    have h400 : createTaskHandler fs uploadDir wp m r freshId now = (400, m, wp) := by
      simp [createTaskHandler, hbf]
    refine ⟨?_, ?_, ?_⟩
    · rw [h400]
      constructor
      · intro habs
        exact absurd habs (by simp)
      · intro hr
        exact absurd ⟨hr.1, hr.2.1, hr.2.2.1⟩ hmem
    · intro habs
      rw [h400] at habs
      exact absurd habs (by simp)
    · intro _
      rw [h400]
      exact ⟨rfl, rfl⟩

/-- C9: the `ListTasks` loop returns the map entries in the runtime's
iteration order: with two stored records created at instants 1 and 2 both
iteration orders are possible, one of them yields a slice that is not in the
creation-time order the source comments promise, and the two orders yield
different slices — the result is neither deterministic nor ordered by
creation time. -/
theorem C9_list_returns_map_iteration_order :
    listTasksLoop [olderRec, newerRec] 20 0 = [olderRec, newerRec] ∧
    sortedByCreatedDesc (listTasksLoop [olderRec, newerRec] 20 0) = false ∧
    [olderRec, newerRec].Perm [newerRec, olderRec] ∧
    listTasksLoop [olderRec, newerRec] 20 0 ≠ listTasksLoop [newerRec, olderRec] 20 0 := by
  refine ⟨by decide, by decide, by decide, by decide⟩

/-- C10: submitting to a stopped pool logs a warning and returns before the
job is built: the pool (hence the queue), the task store (hence the task's
record and its Pending status) are untouched and no progress event is
published. -/
theorem C10_submit_after_stop_changes_nothing (wp : TaskPool) (store : Store)
    (t : TaskRec) (h : wp.stopped = true) :
    wp.submitTask store t = (wp, store, []) ∧
    ((wp.submitTask store t).2.1).getTask t.id = store.getTask t.id := by
  constructor
  · simp [TaskPool.submitTask, h]
  · simp [TaskPool.submitTask, h]

/-- C10 witness: a stopped pool and a store holding a pending record. -/
theorem C10_submit_after_stop_changes_nothing_witness :
    stoppedPool.stopped = true ∧
    stoppedPool.submitTask storeWithPending pendingRec
      = (stoppedPool, storeWithPending, []) ∧
    storeWithPending.getTask "t9" = some pendingRec ∧
    pendingRec.status = TaskStatus.pending := by
  have h := C10_submit_after_stop_changes_nothing stoppedPool storeWithPending pendingRec rfl
  exact ⟨rfl, h.1, by decide, rfl⟩

end WebpCompressor
